import Mathlib

/-!
Verification of the BIO chunk extraction and precision/recall/F1 scoring
code from `12.ner/SequenceLabelingBiLSTM.ipynb` (`calculateF1` and its
inner helper `get_entities`).

The embedding translates the Python loops into structural recursion:
  * `stepTag` is the body of the inner `for w_idx in range(len(sent))` loop;
  * `scanTags` runs that body left to right over a sentence's tags;
  * `get_entities_sent` adds the end-of-sentence closing step;
  * `get_entities_go` / `get_entities` iterate over sentences
    (`for s_idx in range(len(sequences))`);
  * `calculateF1` builds the two chunk sets and computes the metrics,
    with real arithmetic modelled over `ℚ`.
-/

/-- A labeled chunk `(sentence_index, start_token_index, end_token_index, category)`. -/
abbrev Chunk := Nat × Nat × Nat × String

/-- Split a character list at every `'-'`, keeping empty pieces, as Python's
`str.split("-")` does on the underlying characters (`"" ↦ [""]`,
`"B-PER" ↦ ["B", "PER"]`, `"B-geo-loc" ↦ ["B", "geo", "loc"]`). -/
def splitDashChars : List Char → List (List Char)
  | [] => [[]]
  | c :: rest =>
      match splitDashChars rest with
      | [] => []
      | hd :: tl => if c = '-' then [] :: hd :: tl else (c :: hd) :: tl

/-- `tag.split("-")` from the source, modelled over the tag's characters. -/
def splitDash (tag : String) : List String :=
  (splitDashChars tag.data).map (fun cs => ⟨cs⟩)

/-- The `BIO` marker of a tag: `parts[0]` when `tag.split("-")` has exactly two
parts, the default `"O"` otherwise (lines `BIO="O" / if len(parts) == 2: BIO=parts[0]`). -/
def bioOf (tag : String) : String :=
  match splitDash tag with | [b, _] => b | _ => "O"

/-- The category of a tag: `parts[1]` when the split has exactly two parts.
The placeholder `""` is never consulted, since the source only reads `cat`
when `BIO == "B"`, which forces a two-part split in the same iteration. -/
def catOf (tag : String) : String :=
  match splitDash tag with | [_, c] => c | _ => ""

/-- The `if start != None:` closing block: emit
`(s_idx, start, w_idx - 1, startCat)` when a chunk is open, else no change. -/
def closeChunk (s_idx w_idx : Nat) (st : Option (Nat × String)) (ents : List Chunk) :
    List Chunk :=
  match st with
  | some (start, startCat) => ents ++ [(s_idx, start, w_idx - 1, startCat)]
  | none => ents

/-- One iteration of the token loop in `get_entities`: parse the tag, close the
open chunk when `BIO` is `B` or `O`, then open a new chunk when `BIO` is `B`. -/
def stepTag (s_idx w_idx : Nat) (tag : String)
    (st : Option (Nat × String)) (ents : List Chunk) :
    Option (Nat × String) × List Chunk :=
  let bio := bioOf tag
  let closed : Option (Nat × String) × List Chunk :=
    if bio = "B" ∨ bio = "O" then (none, closeChunk s_idx w_idx st ents)
    else (st, ents)
  if bio = "B" then (some (w_idx, catOf tag), closed.2) else closed

/-- The token loop of `get_entities`, scanning tags left to right from token
index `w`, threading the open-chunk state and the accumulated chunk list. -/
def scanTags (s_idx : Nat) : Nat → List String → Option (Nat × String) → List Chunk →
    Option (Nat × String) × List Chunk
  | _, [], st, ents => (st, ents)
  | w, tag :: rest, st, ents =>
      let r := stepTag s_idx w tag st ents
      scanTags s_idx (w + 1) rest r.1 r.2

/-- Chunks extracted from one sentence: scan all tags, and if a chunk is still
open at the end, close it at the last token index (`len(sent) - 1`). -/
def get_entities_sent (s_idx : Nat) (sent : List String) : List Chunk :=
  match scanTags s_idx 0 sent none [] with
  | (some (start, startCat), ents) => ents ++ [(s_idx, start, sent.length - 1, startCat)]
  | (none, ents) => ents

/-- The sentence loop of `get_entities`, with `s_idx` the index of the first
sentence of the remaining list. -/
def get_entities_go (s_idx : Nat) : List (List String) → List Chunk
  | [] => []
  | sent :: rest => get_entities_sent s_idx sent ++ get_entities_go (s_idx + 1) rest

/-- `get_entities(sequences)`: the list of all chunks of all sentences, in
emission order. -/
def get_entities (sequences : List (List String)) : List Chunk :=
  get_entities_go 0 sequences

/-- `calculateF1(gold_sequences, predicted_sequences)`: extract both chunk
sets and return `(precision, recall, F1)`, with each zero-denominator case
returning `0`. Real arithmetic is modelled over `ℚ`. -/
def calculateF1 (gold_sequences predicted_sequences : List (List String)) : ℚ × ℚ × ℚ :=
  let g_set : Finset Chunk := (get_entities gold_sequences).toFinset
  let p_set : Finset Chunk := (get_entities predicted_sequences).toFinset
  let precision : ℚ := if 0 < p_set.card then ((g_set ∩ p_set).card : ℚ) / p_set.card else 0
  let recl : ℚ := if 0 < g_set.card then ((g_set ∩ p_set).card : ℚ) / g_set.card else 0
  let F1 : ℚ := if 0 < precision + recl then 2 * precision * recl / (precision + recl) else 0
  (precision, recl, F1)

/-- The spec's `extract(dataset) -> ChunkSet` (§4.1): the set of all emitted
chunks, duplicates collapsed. In the source this is `set(get_entities(...))`. -/
def extract (dataset : List (List String)) : Finset Chunk :=
  (get_entities dataset).toFinset

/-- The Chunk Scorer formula exactly as the spec states it (§4.2):
`precision = |g ∩ p| / |p|` if `|p| > 0` else `0`;
`recall = |g ∩ p| / |g|` if `|g| > 0` else `0`;
`F1 = 2·precision·recall / (precision + recall)` if `precision + recall > 0`
else `0`. Stated over the two chunk sets, to be compared with `calculateF1`. -/
def score_spec (g p : Finset Chunk) : ℚ × ℚ × ℚ :=
  let precision : ℚ := if 0 < p.card then ((g ∩ p).card : ℚ) / p.card else 0
  let recl : ℚ := if 0 < g.card then ((g ∩ p).card : ℚ) / g.card else 0
  let F1 : ℚ := if 0 < precision + recl then 2 * precision * recl / (precision + recl) else 0
  (precision, recl, F1)

/-- Alignment of two datasets: same number of sentences, and sentence `i` has
the same number of tokens in both. `calculateF1` itself never checks this. -/
def aligned (gold pred : List (List String)) : Bool :=
  gold.length == pred.length &&
    (List.zip gold pred).all (fun q => q.1.length == q.2.length)

/-- The gold example dataset from the `calculateF1` docstring and the example call. -/
def goldExample : List (List String) :=
  [["B-PER", "I-PER", "O", "O", "O", "O", "B-ORG"], ["O", "O", "O"]]

/-- The predicted example dataset from the `calculateF1` docstring and the example call. -/
def predExample : List (List String) :=
  [["B-PER", "O", "O", "O", "B-PER", "O", "B-ORG"], ["O", "O", "O"]]

/-- Invariant of the token scan: after processing tokens `0 .. w-1` of sentence
`s_idx`, every emitted chunk carries sentence index `s_idx`, has
`start ≤ end < w`, chunk spans are pairwise disjoint in emission order
(`end` of an earlier chunk is below `start` of a later one), and an open chunk
started strictly below `w` and strictly above every emitted chunk's end. -/
def EntsInv (s_idx w : Nat) (st : Option (Nat × String)) (ents : List Chunk) : Prop :=
  (∀ c ∈ ents, c.1 = s_idx ∧ c.2.1 ≤ c.2.2.1 ∧ c.2.2.1 < w) ∧
  List.Pairwise (fun c d => c.2.2.1 < d.2.1) ents ∧
  ∀ a cat, st = some (a, cat) → a < w ∧ ∀ c ∈ ents, c.2.2.1 < a

theorem stepTag_char (s_idx w : Nat) (tag : String) (st : Option (Nat × String))
    (ents : List Chunk) :
    stepTag s_idx w tag st ents =
      if bioOf tag = "B" then (some (w, catOf tag), closeChunk s_idx w st ents)
      else if bioOf tag = "O" then (none, closeChunk s_idx w st ents)
      else (st, ents) := by
  simp only [stepTag]
  split_ifs <;> first | rfl | tauto

theorem closeChunk_inv (s_idx w : Nat) (st : Option (Nat × String)) (ents : List Chunk)
    (h : EntsInv s_idx w st ents) :
    (∀ c ∈ closeChunk s_idx w st ents, c.1 = s_idx ∧ c.2.1 ≤ c.2.2.1 ∧ c.2.2.1 < w) ∧
    List.Pairwise (fun c d => c.2.2.1 < d.2.1) (closeChunk s_idx w st ents) := by
  obtain ⟨hmem, hpw, hst⟩ := h
  cases st with
  | none => exact ⟨hmem, hpw⟩
  | some p =>
      obtain ⟨a, cat⟩ := p
      obtain ⟨haw, hlt⟩ := hst a cat rfl
      simp only [closeChunk]
      constructor
      · intro c hc
        rcases List.mem_append.mp hc with hc | hc
        · exact hmem c hc
        · simp only [List.mem_singleton] at hc
          subst hc
          exact ⟨rfl, show a ≤ w - 1 by omega, show w - 1 < w by omega⟩
      · rw [List.pairwise_append]
        refine ⟨hpw, List.pairwise_singleton _ _, ?_⟩
        intro x hx y hy
        simp only [List.mem_singleton] at hy
        subst hy
        exact hlt x hx

theorem stepTag_inv (s_idx w : Nat) (tag : String) (st : Option (Nat × String))
    (ents : List Chunk) (h : EntsInv s_idx w st ents) :
    EntsInv s_idx (w + 1) (stepTag s_idx w tag st ents).1 (stepTag s_idx w tag st ents).2 := by
  obtain hclose := closeChunk_inv s_idx w st ents h
  obtain ⟨hmem, hpw, hst⟩ := h
  rw [stepTag_char]
  split_ifs with hb ho
  · refine ⟨fun c hc => ⟨(hclose.1 c hc).1, (hclose.1 c hc).2.1, by
      have := (hclose.1 c hc).2.2; omega⟩, hclose.2, ?_⟩
    intro a cat heq
    simp only [Option.some.injEq, Prod.mk.injEq] at heq
    refine ⟨by omega, fun c hc => ?_⟩
    have := (hclose.1 c hc).2.2
    omega
  · refine ⟨fun c hc => ⟨(hclose.1 c hc).1, (hclose.1 c hc).2.1, by
      have := (hclose.1 c hc).2.2; omega⟩, hclose.2, ?_⟩
    intro a cat heq
    simp at heq
  · refine ⟨fun c hc => ⟨(hmem c hc).1, (hmem c hc).2.1, by
      have := (hmem c hc).2.2; omega⟩, hpw, ?_⟩
    intro a cat heq
    obtain ⟨h1, h2⟩ := hst a cat heq
    exact ⟨by omega, h2⟩

theorem scanTags_inv (s_idx : Nat) (tags : List String) (w : Nat)
    (st : Option (Nat × String)) (ents : List Chunk) (h : EntsInv s_idx w st ents) :
    EntsInv s_idx (w + tags.length)
      (scanTags s_idx w tags st ents).1 (scanTags s_idx w tags st ents).2 := by
  induction tags generalizing w st ents with
  | nil => simpa using h
  | cons t rest ih =>
      simp only [scanTags]
      have hstep := stepTag_inv s_idx w t st ents h
      have := ih (w + 1) _ _ hstep
      simpa [Nat.add_comm, Nat.add_assoc, Nat.add_left_comm] using this

/-- Per-sentence facts: every chunk of `get_entities_sent s_idx sent` carries
sentence index `s_idx`, spans `start ≤ end < sent.length`, and consecutive
chunks are emitted with the earlier chunk's end below the later chunk's start. -/
theorem get_entities_sent_inv (s_idx : Nat) (sent : List String) :
    (∀ c ∈ get_entities_sent s_idx sent,
        c.1 = s_idx ∧ c.2.1 ≤ c.2.2.1 ∧ c.2.2.1 < sent.length) ∧
    List.Pairwise (fun c d => c.2.2.1 < d.2.1) (get_entities_sent s_idx sent) := by
  have h0 : EntsInv s_idx 0 none [] := by
    refine ⟨by simp, by simp, ?_⟩
    intro a cat heq
    simp at heq
  have h := scanTags_inv s_idx sent 0 none [] h0
  rw [Nat.zero_add] at h
  obtain ⟨hmem, hpw, hst⟩ := h
  unfold get_entities_sent
  rcases hscan : scanTags s_idx 0 sent none [] with ⟨st', ents'⟩
  rw [hscan] at hmem hpw hst
  cases st' with
  | none => exact ⟨hmem, hpw⟩
  | some p =>
      obtain ⟨a, cat⟩ := p
      obtain ⟨haw, hlt⟩ := hst a cat rfl
      constructor
      · intro c hc
        rcases List.mem_append.mp hc with hc | hc
        · exact hmem c hc
        · simp only [List.mem_singleton] at hc
          subst hc
          exact ⟨rfl, show a ≤ sent.length - 1 by omega,
            show sent.length - 1 < sent.length by omega⟩
      · rw [List.pairwise_append]
        refine ⟨hpw, List.pairwise_singleton _ _, ?_⟩
        intro x hx y hy
        simp only [List.mem_singleton] at hy
        subst hy
        exact hlt x hx

theorem mem_get_entities_go (k : Nat) (seqs : List (List String)) (c : Chunk)
    (hc : c ∈ get_entities_go k seqs) :
    ∃ i sent, seqs[i]? = some sent ∧ c ∈ get_entities_sent (k + i) sent := by
  induction seqs generalizing k with
  | nil => simp [get_entities_go] at hc
  | cons sent rest ih =>
      simp only [get_entities_go] at hc
      rcases List.mem_append.mp hc with hc | hc
      · exact ⟨0, sent, by simp, by simpa using hc⟩
      · obtain ⟨i, s2, h1, h2⟩ := ih (k + 1) hc
        refine ⟨i + 1, s2, by simpa using h1, ?_⟩
        rw [show k + (i + 1) = (k + 1) + i by omega]
        exact h2

theorem get_entities_go_mem_of (k i : Nat) (seqs : List (List String)) (sent : List String)
    (hs : seqs[i]? = some sent) (c : Chunk) (hc : c ∈ get_entities_sent (k + i) sent) :
    c ∈ get_entities_go k seqs := by
  induction seqs generalizing k i with
  | nil => simp at hs
  | cons s0 rest ih =>
      cases i with
      | zero =>
          simp only [List.getElem?_cons_zero, Option.some.injEq] at hs
          subst hs
          simp only [get_entities_go]
          exact List.mem_append.mpr (Or.inl (by simpa using hc))
      | succ j =>
          simp only [List.getElem?_cons_succ] at hs
          simp only [get_entities_go]
          refine List.mem_append.mpr (Or.inr ?_)
          refine ih (k + 1) j hs ?_
          rw [show (k + 1) + j = k + (j + 1) by omega]
          exact hc

theorem get_entities_sent_nodup (s_idx : Nat) (sent : List String) :
    (get_entities_sent s_idx sent).Nodup := by
  obtain ⟨hmem, hpw⟩ := get_entities_sent_inv s_idx sent
  refine List.Pairwise.imp_of_mem ?_ hpw
  intro a b ha hb hr heq
  subst heq
  have := (hmem a ha).2.1
  omega

theorem get_entities_go_nodup (k : Nat) (seqs : List (List String)) :
    (get_entities_go k seqs).Nodup := by
  induction seqs generalizing k with
  | nil => simp [get_entities_go]
  | cons sent rest ih =>
      simp only [get_entities_go]
      rw [List.nodup_append]
      refine ⟨get_entities_sent_nodup k sent, ih (k + 1), ?_⟩
      intro c hc1 hc2
      have h1 : c.1 = k := ((get_entities_sent_inv k sent).1 c hc1).1
      obtain ⟨i, s2, hs, hmem2⟩ := mem_get_entities_go (k + 1) rest c hc2
      have h2 : c.1 = (k + 1) + i := ((get_entities_sent_inv ((k + 1) + i) s2).1 c hmem2).1
      omega

theorem get_entities_sent_pairwise (s_idx : Nat) (sent : List String) :
    List.Pairwise (fun c d : Chunk => c.2.2.1 < d.2.1 ∧ c.2.1 < d.2.1)
      (get_entities_sent s_idx sent) := by
  obtain ⟨hmem, hpw⟩ := get_entities_sent_inv s_idx sent
  refine List.Pairwise.imp_of_mem ?_ hpw
  intro a b ha hb hr
  have := (hmem a ha).2.1
  exact ⟨hr, by omega⟩

theorem goldExample_card : (get_entities goldExample).toFinset.card = 2 := by decide

theorem predExample_card : (get_entities predExample).toFinset.card = 3 := by decide

theorem exampleInter_card :
    ((get_entities goldExample).toFinset ∩ (get_entities predExample).toFinset).card = 1 := by
  decide

/-- C1: on the literal gold/predicted example inputs, extraction yields exactly
the gold chunk set `{(0,0,1,"PER"), (0,6,6,"ORG")}` and the predicted chunk set
`{(0,0,0,"PER"), (0,4,4,"PER"), (0,6,6,"ORG")}`, their intersection has size 1,
and `calculateF1` returns precision `1/3`, recall `1/2`, F1 `2/5`. -/
theorem C1_literal_scenario :
    extract goldExample = ({(0, 0, 1, "PER"), (0, 6, 6, "ORG")} : Finset Chunk) ∧
    extract predExample =
      ({(0, 0, 0, "PER"), (0, 4, 4, "PER"), (0, 6, 6, "ORG")} : Finset Chunk) ∧
    (extract goldExample ∩ extract predExample).card = 1 ∧
    calculateF1 goldExample predExample = (1/3, 1/2, 2/5) := by
  refine ⟨by decide, by decide, by decide, ?_⟩
  simp only [calculateF1, goldExample_card, predExample_card, exampleInter_card]
  norm_num

/-- C2: for every pair of datasets, `calculateF1` returns exactly the spec's
scoring formula over the two extracted chunk sets — precision `|g∩p|/|p|`
guarded by `|p| > 0`, recall `|g∩p|/|g|` guarded by `|g| > 0`, F1
`2pr/(p+r)` guarded by `p + r > 0` — each zero-denominator case yielding the
exact value `0` (total function over `ℚ`: no NaN, no exception). -/
theorem C2_score_formula (gold pred : List (List String)) :
    calculateF1 gold pred = score_spec (extract gold) (extract pred) := rfl

/-- C3 counterexample: the claim includes two-part tags whose first part is
outside `{B, I}`, such as `"Q-Z"`; but the code parses `"Q-Z"` into `BIO="Q"`,
which matches neither the closing branch (`B`/`O`) nor the opening branch, so
it leaves the open `PER` chunk open — unlike `"O"`, which closes it at the
previous token. The two runs therefore emit different chunks. -/
theorem C3_counterexample :
    get_entities [["B-PER", "Q-Z", "O"]] = [(0, 0, 1, "PER")] ∧
    get_entities [["B-PER", "O", "O"]] = [(0, 0, 0, "PER")] ∧
    get_entities [["B-PER", "Q-Z", "O"]] ≠ get_entities [["B-PER", "O", "O"]] := by
  refine ⟨by decide, by decide, by decide⟩

/-- C3 amended: a tag whose split on `"-"` does not have exactly two parts
(e.g. `"X"`, `"A-B-C"`) defaults to `BIO="O"` and is processed exactly like the
literal tag `"O"`: it closes any open chunk and never opens or extends one.
(A two-part tag `X-cat` with `X ∉ {B, O}`, such as `"Q-Z"`, instead behaves
like `I`: it neither closes nor opens.) -/
theorem C3_amended_unsplittable_tag_acts_like_O (tag : String)
    (h : (splitDash tag).length ≠ 2) (s w : Nat) (st : Option (Nat × String))
    (ents : List Chunk) :
    stepTag s w tag st ents = stepTag s w "O" st ents := by
  have hbio : bioOf tag = "O" := by
    unfold bioOf
    rcases hp : splitDash tag with _ | ⟨b, tl⟩
    · rfl
    · rcases tl with _ | ⟨c, tl2⟩
      · rfl
      · rcases tl2 with _ | ⟨d, tl3⟩
        · rw [hp] at h
          simp at h
        · rfl
  have hbioO : bioOf "O" = "O" := rfl
  rw [stepTag_char, stepTag_char, hbio, hbioO]
  rw [if_neg (show ¬(("O" : String) = "B") by decide),
    if_neg (show ¬(("O" : String) = "B") by decide)]

/-- C3 witness: the no-hyphen tag `"X"` is in the amended class, and at a state
with an open `PER` chunk it acts exactly like `"O"`. -/
theorem C3_amended_witness :
    (splitDash "X").length ≠ 2 ∧
    stepTag 3 1 "X" (some (0, "PER")) [] = stepTag 3 1 "O" (some (0, "PER")) [] :=
  ⟨by decide, C3_amended_unsplittable_tag_acts_like_O "X" (by decide) 3 1 (some (0, "PER")) []⟩

theorem splitDashChars_no_dash (cs : List Char) (h : Char.ofNat 45 ∉ cs) :
    splitDashChars cs = [cs] := by
  induction cs with
  | nil => rfl
  | cons c rest ih =>
      have hc : ¬ c = Char.ofNat 45 := fun he => h (he ▸ List.mem_cons_self c rest)
      have hrest : Char.ofNat 45 ∉ rest := fun hm => h (List.mem_cons_of_mem c hm)
      have hdash : Char.ofNat 45 = '-' := rfl
      rw [hdash] at hc
      simp [splitDashChars, ih (by rw [hdash] at hrest; exact hrest), hc]

theorem splitDash_B_cat (cat : String) (h : Char.ofNat 45 ∉ cat.data) :
    splitDash ("B-" ++ cat) = ["B", cat] := by
  have hdata : ("B-" ++ cat).data = 'B' :: '-' :: cat.data := by
    rw [String.data_append]
    rfl
  unfold splitDash
  rw [hdata]
  rw [show splitDashChars ('B' :: '-' :: cat.data) =
      match splitDashChars ('-' :: cat.data) with
      | [] => []
      | hd :: tl => if 'B' = '-' then [] :: hd :: tl else ('B' :: hd) :: tl from rfl]
  rw [show splitDashChars ('-' :: cat.data) =
      match splitDashChars cat.data with
      | [] => []
      | hd :: tl => if '-' = '-' then [] :: hd :: tl else ('-' :: hd) :: tl from rfl]
  rw [splitDashChars_no_dash cat.data h]
  simp

/-- C4 counterexample: the claim allows categories containing a hyphen, such as
`"geo-loc"`; but `"B-geo-loc".split("-")` has three parts, so the code treats
the tag as `BIO="O"`: no chunk is opened and the dataset `[["B-geo-loc"]]`
extracts to the empty list instead of `[(0, 0, 0, "geo-loc")]`. -/
theorem C4_counterexample :
    get_entities [["B-geo-loc"]] = [] ∧
    stepTag 0 0 "B-geo-loc" none [] = (none, []) := by
  exact ⟨by decide, by decide⟩

/-- C4 amended: for a tag `B-<category>` whose category is hyphen-free
(equivalently, whose split on `"-"` is exactly `["B", category]`), scanning the
token opens a new chunk at the current token with exactly that category, after
performing the usual `B`/`O` closing step. -/
theorem C4_amended_B_opens_chunk (cat : String) (h : Char.ofNat 45 ∉ cat.data)
    (s w : Nat) (st : Option (Nat × String)) (ents : List Chunk) :
    stepTag s w ("B-" ++ cat) st ents = (some (w, cat), closeChunk s w st ents) := by
  have hb : bioOf ("B-" ++ cat) = "B" := by
    unfold bioOf
    rw [splitDash_B_cat cat h]
  have hc : catOf ("B-" ++ cat) = cat := by
    unfold catOf
    rw [splitDash_B_cat cat h]
  rw [stepTag_char, hb, hc, if_pos rfl]

/-- C4 witness: the concrete category `"geo"` is hyphen-free and `"B-geo"`
opens the chunk state `some (2, "geo")` at token 2. -/
theorem C4_amended_witness :
    Char.ofNat 45 ∉ "geo".data ∧
    stepTag 0 2 ("B-" ++ "geo") none [] = (some (2, "geo"), []) :=
  ⟨by decide, C4_amended_B_opens_chunk "geo" (by decide) 0 2 none []⟩

/-- C5 counterexample: on inputs whose sentence counts (1 vs 2) and token
counts differ, `calculateF1` raises nothing and silently returns the Metrics
triple `(1, 1, 1)` computed from the independently extracted chunk sets. -/
theorem C5_counterexample :
    aligned [["B-PER"]] [["B-PER", "O"], ["O"]] = false ∧
    calculateF1 [["B-PER"]] [["B-PER", "O"], ["O"]] = (1, 1, 1) := by
  refine ⟨by decide, ?_⟩
  have h1 : (get_entities [["B-PER"]]).toFinset = ({(0, 0, 0, "PER")} : Finset Chunk) := by
    decide
  have h2 : (get_entities [["B-PER", "O"], ["O"]]).toFinset
      = ({(0, 0, 0, "PER")} : Finset Chunk) := by decide
  simp only [calculateF1, h1, h2, Finset.inter_self, Finset.card_singleton]
  norm_num

/-- C5 amended: `calculateF1` performs no alignment check at all; even when the
gold and predicted datasets are misaligned (different sentence counts or some
sentence with different token counts), it computes and returns the ordinary
scoring formula over the two independently extracted chunk sets. -/
theorem C5_amended_no_alignment_check (gold pred : List (List String))
    (_h : aligned gold pred = false) :
    calculateF1 gold pred = score_spec (extract gold) (extract pred) := rfl

/-- C5 witness: a concrete misaligned pair on which the amended statement
applies. -/
theorem C5_amended_witness :
    aligned [["B-PER"]] [["B-PER", "O"], ["O"]] = false ∧
    calculateF1 [["B-PER"]] [["B-PER", "O"], ["O"]] =
      score_spec (extract [["B-PER"]]) (extract [["B-PER", "O"], ["O"]]) :=
  ⟨by decide, C5_amended_no_alignment_check [["B-PER"]] [["B-PER", "O"], ["O"]] (by decide)⟩

/-- C6: scoring any dataset against itself returns exactly `(1, 1, 1)` as soon
as its extracted chunk set is non-empty. -/
theorem C6_score_self (D : List (List String))
    (h : (get_entities D).toFinset.Nonempty) :
    calculateF1 D D = (1, 1, 1) := by
  have hc : 0 < (get_entities D).toFinset.card := Finset.card_pos.mpr h
  have hne : (((get_entities D).toFinset.card : ℚ)) ≠ 0 := by
    exact_mod_cast Nat.pos_iff_ne_zero.mp hc
  simp only [calculateF1, Finset.inter_self]
  rw [if_pos hc, div_self hne]
  norm_num

/-- C6 witness: the one-chunk dataset `[["B-PER"]]` scores `(1, 1, 1)` against
itself. -/
theorem C6_witness :
    (get_entities [["B-PER"]]).toFinset.Nonempty ∧
    calculateF1 [["B-PER"]] [["B-PER"]] = (1, 1, 1) :=
  ⟨by decide, C6_score_self [["B-PER"]] (by decide)⟩

/-- C7: in every sentence of the dataset where the token scan ends with a chunk
still open, extraction emits that chunk closed at the sentence's last token
index (`len(sent) - 1`); the open chunk is never dropped. -/
theorem C7_open_chunk_closed_at_end (seqs : List (List String)) (s_idx : Nat)
    (sent : List String) (hs : seqs[s_idx]? = some sent) (start : Nat) (cat : String)
    (hopen : (scanTags s_idx 0 sent none []).1 = some (start, cat)) :
    (s_idx, start, sent.length - 1, cat) ∈ get_entities seqs := by
  have hsent : (s_idx, start, sent.length - 1, cat) ∈ get_entities_sent s_idx sent := by
    rcases hscan : scanTags s_idx 0 sent none [] with ⟨st', ents'⟩
    rw [hscan] at hopen
    dsimp only at hopen
    subst hopen
    simp [get_entities_sent, hscan]
  unfold get_entities
  refine get_entities_go_mem_of 0 s_idx seqs sent hs _ ?_
  rw [Nat.zero_add]
  exact hsent

/-- C7 witness: in `[["B-PER", "I-PER"]]` the scan ends with `(0, "PER")` open,
and the chunk `(0, 0, 1, "PER")` closed at the last token is emitted. -/
theorem C7_witness :
    ([["B-PER", "I-PER"]] : List (List String))[(0 : Nat)]? = some ["B-PER", "I-PER"] ∧
    (scanTags 0 0 ["B-PER", "I-PER"] none []).1 = some (0, "PER") ∧
    (0, 0, 1, "PER") ∈ get_entities [["B-PER", "I-PER"]] :=
  ⟨by decide, by decide,
    C7_open_chunk_closed_at_end [["B-PER", "I-PER"]] 0 ["B-PER", "I-PER"]
      (by decide) 0 "PER" (by decide)⟩

/-- C8: a token whose parsed BIO marker is `I` changes nothing: the state and
the emitted chunk list are returned untouched, so an open chunk of any category
stays open (even across a different `I` category, keeping the original
category) and no chunk is opened when none is open. -/
theorem C8_I_tag_no_close_no_open (tag : String) (h : bioOf tag = "I")
    (s w : Nat) (st : Option (Nat × String)) (ents : List Chunk) :
    stepTag s w tag st ents = (st, ents) := by
  rw [stepTag_char, h,
    if_neg (show ¬(("I" : String) = "B") by decide),
    if_neg (show ¬(("I" : String) = "O") by decide)]

/-- C8 witness: `"I-ORG"` parses to marker `I`, and with a `PER` chunk open it
neither closes it nor opens anything (the category mismatch is ignored). -/
theorem C8_witness :
    bioOf "I-ORG" = "I" ∧
    stepTag 0 1 "I-ORG" (some (0, "PER")) [] = (some (0, "PER"), []) :=
  ⟨by decide, C8_I_tag_no_close_no_open "I-ORG" (by decide) 0 1 (some (0, "PER")) []⟩

/-- C9: every chunk produced by extraction names a valid sentence index, has
`start ≤ end`, and both indices lie inside the owning sentence, so the chunk's
tokens all belong to that single sentence. -/
theorem C9_chunk_well_formed (seqs : List (List String)) (c : Chunk)
    (hc : c ∈ get_entities seqs) :
    ∃ sent, seqs[c.1]? = some sent ∧ c.2.1 ≤ c.2.2.1 ∧ c.2.2.1 < sent.length := by
  obtain ⟨i, sent, hs, hmem⟩ := mem_get_entities_go 0 seqs c hc
  rw [Nat.zero_add] at hmem
  obtain ⟨h1, h2, h3⟩ := (get_entities_sent_inv i sent).1 c hmem
  refine ⟨sent, ?_, h2, h3⟩
  rw [h1]
  exact hs

/-- C9 witness: the chunk `(0, 0, 1, "PER")` of the gold example lies inside
its 7-token first sentence. -/
theorem C9_witness :
    (0, 0, 1, "PER") ∈ get_entities goldExample ∧
    ∃ sent, goldExample[(0 : Nat)]? = some sent ∧ 0 ≤ 1 ∧ 1 < sent.length :=
  ⟨by decide, C9_chunk_well_formed goldExample (0, 0, 1, "PER") (by decide)⟩

/-- C10: the chunk list emitted by extraction has no duplicates (so turning it
into a set loses nothing: the set's cardinality is the list's length), and
within any one sentence the emitted chunks have pairwise disjoint spans with
strictly increasing start indices. -/
theorem C10_nodup_and_ordered (seqs : List (List String)) :
    (get_entities seqs).Nodup ∧
    (get_entities seqs).toFinset.card = (get_entities seqs).length ∧
    ∀ s_idx sent, List.Pairwise (fun c d : Chunk => c.2.2.1 < d.2.1 ∧ c.2.1 < d.2.1)
      (get_entities_sent s_idx sent) := by
  have hnd : (get_entities seqs).Nodup := get_entities_go_nodup 0 seqs
  exact ⟨hnd, List.toFinset_card_of_nodup hnd,
    fun s_idx sent => get_entities_sent_pairwise s_idx sent⟩
